import Mathlib

/-!
Shallow embedding of the Symbol-waterfall digital-rain simulation
(`src/lib.rs`): the `Rune` cell state, the character-set rune factory,
the bounds-checked `Grid`, and the `Waterfall` simulation engine with its
`step` tick function and the pure color computation of `render`.

Machine integers (`u8`, `u16`, `usize`) are modelled as `Nat`; wrap-around
is made explicit with `% 256` at the one arithmetic spot where a `u8`
multiplication could overflow.  The process-wide random generator is
modelled as an injected source of draws (`StepRng`), one draw function per
call site, indexed by the loop position at which the code draws.  The
fatal out-of-bounds branches (`expect` in `Grid::get_rune`/`set_rune`,
and the `self.grid[0]` index) are modelled by `Option`: `none` is a panic.
-/

namespace SymbolWaterfall

/-- Catalog of candidate glyphs (`SYMBOLS` in the source). -/
def SYMBOLS : String :=
  "ﾊﾐﾋｰｳｼﾅﾓﾆｻﾜﾂｵﾘｱﾎﾃﾏｹﾒｴｶｷﾑﾕﾗｾﾈｽﾀﾇﾍｦｲｸｺｿﾁﾄﾉﾌﾔﾖﾙﾚﾛﾝ012345789Z:.\"=*+-<>¦╌ç"

/-- Range of how long it takes for a rune to start fading (`RUNE_LIFETIME`). -/
def RUNE_LIFETIME : Nat × Nat := (4, 20)

/-- How long it takes for a rune to fade (`RUNE_FADE_DURATION`). -/
def RUNE_FADE_DURATION : Nat := 7

/-- Spawn chance numerator/denominator pair (`GENERATOR_IN_COLUMN`);
the source comment reads: probability of `.0` to `.1` that a generator
spawns in a column per step. -/
def GENERATOR_IN_COLUMN : Nat × Nat := (1, 90)

/-- Base (trailing) rune color (`RUNE_COLOR_BASE`). -/
def RUNE_COLOR_BASE : Nat × Nat × Nat := (0, 255, 255)

/-- Distinguished generator-head color (`RUNE_GENERATOR_COLOR`). -/
def RUNE_GENERATOR_COLOR : Nat × Nat × Nat := (255, 0, 0)

/-- One animated cell: glyph, remaining lifetime, RGB color (`struct Rune`). -/
structure Rune where
  character : Char
  lifetime : Nat
  color : Nat × Nat × Nat
deriving DecidableEq

/-- `Characters::create_rune`: builds a `Rune` whose lifetime is the drawn
value (the source draws it uniformly from `RUNE_LIFETIME.0..RUNE_LIFETIME.1`)
plus `RUNE_FADE_DURATION`.  The draw is passed in explicitly. -/
def create_rune (lifetimeDraw : Nat) (character : Char) (color : Nat × Nat × Nat) : Rune :=
  { character := character
    lifetime := lifetimeDraw + RUNE_FADE_DURATION
    color := color }

/-- `Characters::create_random_rune`: picks the symbol at the drawn index of
the catalog (the source draws the index uniformly from `0..chars.len()`)
and delegates to `create_rune`. -/
def create_random_rune (symbolDraw lifetimeDraw : Nat) (color : Nat × Nat × Nat) : Rune :=
  create_rune lifetimeDraw (SYMBOLS.toList.getD symbolDraw ' ') color

/-- The grid: a `width × height` rectangle of runes (`struct Grid`,
a `Vec<Vec<Rune>>`; row `y`, column `x`).  The rectangle is modelled as a
cell function together with the two dimensions. -/
structure Grid where
  width : Nat
  height : Nat
  cells : Nat → Nat → Rune

/-- `Grid::set_rune`: bounds-checked overwrite; `none` models the fatal
`expect` branch (first the row index `y`, then the column index `x`). -/
def Grid.set_rune (g : Grid) (x y : Nat) (r : Rune) : Option Grid :=
  if y < g.height then
    if x < g.width then
      some { g with cells := fun x' y' => if x' = x ∧ y' = y then r else g.cells x' y' }
    else none
  else none

/-- `Grid::get_rune`: bounds-checked read access; `none` models the fatal
`expect` branch. -/
def Grid.get_rune (g : Grid) (x y : Nat) : Option Rune :=
  if y < g.height then
    if x < g.width then some (g.cells x y) else none
  else none

/-- `Grid::new`: queries the terminal size (passed in as `width`/`height`),
creates ONE blank rune with `create_rune(' ', RUNE_COLOR_BASE)` (one shared
lifetime draw) and fills every cell with a clone of it. -/
def Grid.new (width height : Nat) (lifetimeDraw : Nat) : Grid :=
  { width := width
    height := height
    cells := fun _ _ => create_rune lifetimeDraw ' ' RUNE_COLOR_BASE }

/-- The injected random source for one `step` call: one draw function per
call site of `rand::thread_rng`, indexed by the loop position at which the
source draws.  `spawnDraw i` is the `gen_range(0..GENERATOR_IN_COLUMN.1)`
draw for column `i`; `advSymbol`/`advLife` are the symbol-index and
lifetime draws for the rune written when the generator at list position
`i` advances; `colSymbol`/`colLife` are the draws for the rune written
when a generator spawns in column `i`. -/
structure StepRng where
  spawnDraw : Nat → Nat
  advSymbol : Nat → Nat
  advLife : Nat → Nat
  colSymbol : Nat → Nat
  colLife : Nat → Nat

/-- The simulation engine state (`struct Waterfall`): the grid, the list of
active generators as `(column, row)` pairs, and the base color.  The
terminal writer is I/O and is not part of the simulation state. -/
structure Waterfall where
  grid : Grid
  generators : List (Nat × Nat)
  baseColor : Nat × Nat × Nat

/-- A freshly constructed `Waterfall` (`Waterfall::new`): a blank grid,
an empty generator list, and `RUNE_COLOR_BASE` as base color. -/
def Waterfall.init (width height lifetimeDraw : Nat) : Waterfall :=
  { grid := Grid.new width height lifetimeDraw
    generators := []
    baseColor := RUNE_COLOR_BASE }

/-- The loop `for g in &self.generators { get_rune(g.0, g.1).color = c }`,
used twice by `step`: dimming the leaving generators with the base color,
and highlighting the surviving generators with `RUNE_GENERATOR_COLOR`. -/
def setColorCells : List (Nat × Nat) → (Nat × Nat × Nat) → Grid → Option Grid
  | [], _, g => some g
  | p :: rest, c, g =>
    match g.get_rune p.1 p.2 with
    | none => none
    | some r =>
      match g.set_rune p.1 p.2 { r with color := c } with
      | none => none
      | some g' => setColorCells rest c g'

/-- The advance loop of `step`: each surviving generator moves down one row
(`g.1 += 1`) and a fresh random rune with the base color is written at its
new position.  `i` is the list position, used to index the random draws. -/
def advanceCells (rng : StepRng) (base : Nat × Nat × Nat) :
    Nat → List (Nat × Nat) → Grid → Option (List (Nat × Nat) × Grid)
  | _, [], g => some ([], g)
  | i, p :: rest, g =>
    match g.set_rune p.1 (p.2 + 1) (create_random_rune (rng.advSymbol i) (rng.advLife i) base) with
    | none => none
    | some g' =>
      match advanceCells rng base (i + 1) rest g' with
      | none => none
      | some (l, g'') => some ((p.1, p.2 + 1) :: l, g'')

/-- The spawn test of `step` for one column draw:
`gen_range(0..GENERATOR_IN_COLUMN.1) <= GENERATOR_IN_COLUMN.0`. -/
def spawnTrigger (draw : Nat) : Bool :=
  draw ≤ GENERATOR_IN_COLUMN.1

/-- The spawn loop of `step`: `for i in 0..self.grid[0].len()`, spawn a
generator at `(i, 0)` and write a fresh random rune there whenever the
column's draw satisfies `draw <= GENERATOR_IN_COLUMN.0`.  `i` is the
current column, `n` the number of columns still to visit. -/
def spawnLoop (rng : StepRng) (base : Nat × Nat × Nat) :
    Nat → Nat → List (Nat × Nat) → Grid → Option (List (Nat × Nat) × Grid)
  | _, 0, gens, g => some (gens, g)
  | i, n + 1, gens, g =>
    if spawnTrigger (rng.spawnDraw i) then
      match g.set_rune i 0 (create_random_rune (rng.colSymbol i) (rng.colLife i) base) with
      | none => none
      | some g' => spawnLoop rng base (i + 1) n (gens ++ [(i, 0)]) g'
    else spawnLoop rng base (i + 1) n gens g

/-- The per-cell aging rule of `step`: when the lifetime is below the
countable threshold `RUNE_LIFETIME.1 + RUNE_FADE_DURATION`, a zero lifetime
blanks the glyph (and skips the decrement), otherwise the lifetime is
decremented by one. -/
def age_rune (r : Rune) : Rune :=
  if r.lifetime < RUNE_LIFETIME.2 + RUNE_FADE_DURATION then
    if r.lifetime = 0 then { r with character := ' ' }
    else { r with lifetime := r.lifetime - 1 }
  else r

/-- The aging pass of `step` over the whole grid. -/
def agePhase (g : Grid) : Grid :=
  { g with cells := fun x y => age_rune (g.cells x y) }

/-- `Waterfall::step`, one discrete tick: dim the leaving generators to the
base color, prune the generators whose next row would leave the grid
(`retain(grid.len() > g.1 + 1)`), advance the survivors writing fresh
runes, spawn new generators per column, age every cell, and highlight the
active generators with `RUNE_GENERATOR_COLOR`.  `none` models a panic:
an out-of-bounds `expect`, or the `self.grid[0]` index on an empty grid. -/
def Waterfall.step (w : Waterfall) (rng : StepRng) : Option Waterfall :=
  match setColorCells w.generators w.baseColor w.grid with
  | none => none
  | some g1 =>
    let kept := w.generators.filter fun g => decide (g1.height > g.2 + 1)
    match advanceCells rng w.baseColor 0 kept g1 with
    | none => none
    | some (adv, g2) =>
      if g2.height = 0 then none
      else
        match spawnLoop rng w.baseColor 0 g2.width adv g2 with
        | none => none
        | some (gens2, g3) =>
          match setColorCells gens2 RUNE_GENERATOR_COLOR (agePhase g3) with
          | none => none
          | some g5 => some { grid := g5, generators := gens2, baseColor := w.baseColor }

/-- The pure color computation of `Waterfall::render` for one rune: the
three-band `match` on the lifetime.  In the fading band the channel
subtraction is the `u8` `saturating_sub`, and the `u8` product that feeds
it is taken `% 256` to expose any wrap-around of the multiplication. -/
def fade_channel (c v : Nat) : Nat :=
  c - (((c / RUNE_FADE_DURATION) * (RUNE_FADE_DURATION - v)) % 256)

/-- The display color `render` paints a rune with (the `new_color` match). -/
def render_color (r : Rune) : Nat × Nat × Nat :=
  if RUNE_FADE_DURATION ≤ r.lifetime then r.color
  else if r.lifetime = 0 then (0, 0, 0)
  else
    (fade_channel r.color.1 r.lifetime,
     fade_channel r.color.2.1 r.lifetime,
     fade_channel r.color.2.2 r.lifetime)

/-- States reachable from a state by repeated successful `step` calls. -/
inductive Reachable : Waterfall → Waterfall → Prop
  | refl (w : Waterfall) : Reachable w w
  | tail {w w' w'' : Waterfall} (rng : StepRng) :
      Reachable w w' → w'.step rng = some w'' → Reachable w w''

/-- Every generator coordinate lies inside the grid. -/
def GenBounded (s : Waterfall) : Prop :=
  ∀ p ∈ s.generators, p.1 < s.grid.width ∧ p.2 < s.grid.height

/-- Every in-bounds cell stores the distinguished generator color exactly
when it is a generator cell, and the base color otherwise. -/
def ColorInvariant (s : Waterfall) : Prop :=
  ∀ x y, x < s.grid.width → y < s.grid.height →
    (s.grid.cells x y).color =
      if (x, y) ∈ s.generators then RUNE_GENERATOR_COLOR else RUNE_COLOR_BASE

/-- A deterministic draw source for concrete evaluations: no column draw
triggers a spawn, creation draws are the smallest allowed ones. -/
def noSpawnRng : StepRng :=
  { spawnDraw := fun _ => 5
    advSymbol := fun _ => 0
    advLife := fun _ => 4
    colSymbol := fun _ => 0
    colLife := fun _ => 4 }

/-- A draw source whose column draw equals `GENERATOR_IN_COLUMN.0` exactly,
the boundary outcome of the spawn test. -/
def boundaryRng : StepRng :=
  { spawnDraw := fun _ => GENERATOR_IN_COLUMN.1
    advSymbol := fun _ => 0
    advLife := fun _ => 4
    colSymbol := fun _ => 0
    colLife := fun _ => 4 }

/-- A 1 × 1 state whose only cell is one tick away from lifetime 0. -/
def oneLifeState : Waterfall :=
  { grid :=
      { width := 1,
        height := 1,
        cells := fun _ _ => { character := 'A', lifetime := 1, color := RUNE_COLOR_BASE } },
    generators := [],
    baseColor := RUNE_COLOR_BASE }

/-- A 1 × 1 state whose only cell already has lifetime 0. -/
def zeroLifeState : Waterfall :=
  { grid :=
      { width := 1,
        height := 1,
        cells := fun _ _ => { character := 'A', lifetime := 0, color := RUNE_COLOR_BASE } },
    generators := [],
    baseColor := RUNE_COLOR_BASE }

/-- A 1 × 2 state with one generator on the bottom row. -/
def bottomState : Waterfall :=
  { grid :=
      { width := 1,
        height := 2,
        cells := fun _ _ => { character := 'C', lifetime := 9, color := RUNE_GENERATOR_COLOR } },
    generators := [(0, 1)],
    baseColor := RUNE_COLOR_BASE }

/-! ### Characterizations of the grid accessors -/

theorem set_rune_eq_some {g : Grid} {x y : Nat} {r : Rune} {g' : Grid} :
    g.set_rune x y r = some g' ↔
      y < g.height ∧ x < g.width ∧
      g' = { g with cells := fun x' y' => if x' = x ∧ y' = y then r else g.cells x' y' } := by
  unfold Grid.set_rune
  split_ifs with h1 h2
  · simp [h1, h2, eq_comm]
  · simp [h1, h2]
  · simp [h1]

theorem get_rune_eq_some {g : Grid} {x y : Nat} {r : Rune} :
    g.get_rune x y = some r ↔ y < g.height ∧ x < g.width ∧ r = g.cells x y := by
  unfold Grid.get_rune
  split_ifs with h1 h2
  · simp [h1, h2, eq_comm]
  · simp [h1, h2]
  · simp [h1]

/-! ### Characterization of the color-setting loop -/

theorem setColorCells_spec :
    ∀ (l : List (Nat × Nat)) (c : Nat × Nat × Nat) (g g' : Grid),
    setColorCells l c g = some g' →
    g'.width = g.width ∧ g'.height = g.height ∧
    ∀ x y, g'.cells x y =
      if (x, y) ∈ l then { g.cells x y with color := c } else g.cells x y
  | [], c, g, g', h => by
    simp only [setColorCells] at h
    cases h
    simp
  | p :: rest, c, g, g', h => by
    unfold setColorCells at h
    split at h
    · exact absurd h (by simp)
    next r hg =>
      split at h
      · exact absurd h (by simp)
      next g1 hs =>
        obtain ⟨hy, hx, hr⟩ := get_rune_eq_some.mp hg
        obtain ⟨-, -, hg1⟩ := set_rune_eq_some.mp hs
        obtain ⟨hw, hh, hc⟩ := setColorCells_spec rest c g1 g' h
        subst hg1
        subst hr
        refine ⟨hw, hh, ?_⟩
        intro x y
        rw [hc x y]
        simp only [List.mem_cons]
        by_cases hp : (x, y) = p
        · have hp1 : x = p.1 ∧ y = p.2 := by
            cases hp; exact ⟨rfl, rfl⟩
          by_cases hm : (x, y) ∈ rest <;>
            simp [hp, hp1, hm, hp1.1, hp1.2]
        · have hp1 : ¬(x = p.1 ∧ y = p.2) := by
            intro hxy
            exact hp (by obtain ⟨h1, h2⟩ := hxy; cases p; simp_all)
          by_cases hm : (x, y) ∈ rest <;>
            simp [hp, hp1, hm]

theorem setColorCells_isSome :
    ∀ (l : List (Nat × Nat)) (c : Nat × Nat × Nat) (g : Grid),
    (∀ p ∈ l, p.1 < g.width ∧ p.2 < g.height) →
    (setColorCells l c g).isSome
  | [], c, g, _ => by simp [setColorCells]
  | p :: rest, c, g, hl => by
    have hp := hl p (List.mem_cons_self ..)
    have hget : g.get_rune p.1 p.2 = some (g.cells p.1 p.2) :=
      get_rune_eq_some.mpr ⟨hp.2, hp.1, rfl⟩
    have hset : g.set_rune p.1 p.2 { g.cells p.1 p.2 with color := c } =
        some { g with cells := fun x' y' =>
          if x' = p.1 ∧ y' = p.2 then { g.cells p.1 p.2 with color := c }
          else g.cells x' y' } :=
      set_rune_eq_some.mpr ⟨hp.2, hp.1, rfl⟩
    unfold setColorCells
    rw [hget]
    simp only [hset]
    exact setColorCells_isSome rest c _ fun q hq => hl q (List.mem_cons_of_mem _ hq)

/-! ### Characterization of the advance loop -/

theorem advanceCells_spec :
    ∀ (i : Nat) (l : List (Nat × Nat)) (g : Grid) (out : List (Nat × Nat) × Grid)
      (rng : StepRng) (base : Nat × Nat × Nat),
    advanceCells rng base i l g = some out →
    out.2.width = g.width ∧ out.2.height = g.height ∧
    out.1 = l.map (fun p => (p.1, p.2 + 1)) ∧
    (∀ x y, (x, y) ∉ out.1 → out.2.cells x y = g.cells x y)
  | i, [], g, out, rng, base, h => by
    simp only [advanceCells] at h
    cases h
    simp
  | i, p :: rest, g, out, rng, base, h => by
    unfold advanceCells at h
    split at h
    · exact absurd h (by simp)
    next g1 hs =>
      split at h
      · exact absurd h (by simp)
      next l2 g2 hadv =>
        cases h
        obtain ⟨hy, hx, hg1⟩ := set_rune_eq_some.mp hs
        obtain ⟨hw, hh, hl, hc⟩ := advanceCells_spec (i + 1) rest g1 (l2, g2) rng base hadv
        subst hg1
        refine ⟨hw, hh, by simp only [List.map_cons]; exact congrArg _ (by simpa using hl), ?_⟩
        intro x y hxy
        simp only [List.mem_cons, not_or] at hxy
        rw [hc x y (by simpa [hl] using hxy.2)]
        have hne : ¬(x = p.1 ∧ y = p.2 + 1) := by
          intro hand
          exact hxy.1 (by simp [hand.1, hand.2])
        simp [hne]

theorem advanceCells_isSome :
    ∀ (i : Nat) (l : List (Nat × Nat)) (g : Grid) (rng : StepRng) (base : Nat × Nat × Nat),
    (∀ p ∈ l, p.1 < g.width ∧ p.2 + 1 < g.height) →
    (advanceCells rng base i l g).isSome
  | i, [], g, rng, base, _ => by simp [advanceCells]
  | i, p :: rest, g, rng, base, hl => by
    have hp := hl p (List.mem_cons_self ..)
    have hset : g.set_rune p.1 (p.2 + 1)
        (create_random_rune (rng.advSymbol i) (rng.advLife i) base) =
        some { g with cells := fun x' y' =>
          if x' = p.1 ∧ y' = p.2 + 1 then
            create_random_rune (rng.advSymbol i) (rng.advLife i) base
          else g.cells x' y' } :=
      set_rune_eq_some.mpr ⟨hp.2, hp.1, rfl⟩
    unfold advanceCells
    rw [hset]
    have hrec := advanceCells_isSome (i + 1) rest
      { g with cells := fun x' y' =>
          if x' = p.1 ∧ y' = p.2 + 1 then
            create_random_rune (rng.advSymbol i) (rng.advLife i) base
          else g.cells x' y' } rng base
      (fun q hq => hl q (List.mem_cons_of_mem _ hq))
    rw [Option.isSome_iff_exists] at hrec
    obtain ⟨⟨l2, g2⟩, h2⟩ := hrec
    simp [h2]

/-! ### Characterization of the spawn loop -/

theorem spawnLoop_spec :
    ∀ (n i : Nat) (gens : List (Nat × Nat)) (g : Grid) (out : List (Nat × Nat) × Grid)
      (rng : StepRng) (base : Nat × Nat × Nat),
    spawnLoop rng base i n gens g = some out →
    out.2.width = g.width ∧ out.2.height = g.height ∧
    ∃ sp : List (Nat × Nat), out.1 = gens ++ sp ∧
      (∀ p ∈ sp, p.2 = 0 ∧ i ≤ p.1 ∧ p.1 < i + n) ∧
      (∀ x y, (x, y) ∉ sp → out.2.cells x y = g.cells x y)
  | 0, i, gens, g, out, rng, base, h => by
    simp only [spawnLoop] at h
    cases h
    exact ⟨rfl, rfl, [], by simp, by simp, by simp⟩
  | n + 1, i, gens, g, out, rng, base, h => by
    unfold spawnLoop at h
    split at h
    next htrig =>
      split at h
      · exact absurd h (by simp)
      next g1 hs =>
        obtain ⟨hy, hx, hg1⟩ := set_rune_eq_some.mp hs
        obtain ⟨hw, hh, sp, hout, hsp, hc⟩ :=
          spawnLoop_spec n (i + 1) (gens ++ [(i, 0)]) g1 out rng base h
        subst hg1
        refine ⟨hw, hh, (i, 0) :: sp, by simp [hout], ?_, ?_⟩
        · intro p hp
          rcases List.mem_cons.mp hp with hp0 | hp1
          · subst hp0; omega
          · have := hsp p hp1; omega
        · intro x y hxy
          simp only [List.mem_cons, not_or] at hxy
          rw [hc x y hxy.2]
          have hne : ¬(x = i ∧ y = 0) := by
            intro hand
            exact hxy.1 (by simp [hand.1, hand.2])
          simp [hne]
    next htrig =>
      obtain ⟨hw, hh, sp, hout, hsp, hc⟩ :=
        spawnLoop_spec n (i + 1) gens g out rng base h
      refine ⟨hw, hh, sp, hout, ?_, hc⟩
      intro p hp
      have := hsp p hp; omega

theorem spawnLoop_isSome :
    ∀ (n i : Nat) (gens : List (Nat × Nat)) (g : Grid) (rng : StepRng) (base : Nat × Nat × Nat),
    i + n ≤ g.width → 0 < g.height →
    (spawnLoop rng base i n gens g).isSome
  | 0, i, gens, g, rng, base, _, _ => by simp [spawnLoop]
  | n + 1, i, gens, g, rng, base, hw, hh => by
    unfold spawnLoop
    split
    · have hset : g.set_rune i 0
          (create_random_rune (rng.colSymbol i) (rng.colLife i) base) =
          some { g with cells := fun x' y' =>
            if x' = i ∧ y' = 0 then
              create_random_rune (rng.colSymbol i) (rng.colLife i) base
            else g.cells x' y' } :=
        set_rune_eq_some.mpr ⟨hh, by omega, rfl⟩
      rw [hset]
      exact spawnLoop_isSome n (i + 1) (gens ++ [(i, 0)]) _ rng base (by simp; omega) hh
    · exact spawnLoop_isSome n (i + 1) gens g rng base (by omega) hh

/-! ### The aging pass -/

theorem age_rune_color (r : Rune) : (age_rune r).color = r.color := by
  unfold age_rune
  split_ifs <;> rfl

theorem agePhase_cells (g : Grid) (x y : Nat) :
    (agePhase g).cells x y = age_rune (g.cells x y) := rfl

theorem agePhase_width (g : Grid) : (agePhase g).width = g.width := rfl

theorem agePhase_height (g : Grid) : (agePhase g).height = g.height := rfl

/-! ### Full characterization of one `step` call -/

theorem step_spec (s : Waterfall) (rng : StepRng)
    (hg : ∀ p ∈ s.generators, p.1 < s.grid.width ∧ p.2 < s.grid.height)
    (hh : 0 < s.grid.height) :
    ∃ s', s.step rng = some s' ∧
      s'.grid.width = s.grid.width ∧ s'.grid.height = s.grid.height ∧
      s'.baseColor = s.baseColor ∧
      (∃ spawned : List (Nat × Nat),
        s'.generators =
          ((s.generators.filter fun q => decide (s.grid.height > q.2 + 1)).map
            fun q => (q.1, q.2 + 1)) ++ spawned ∧
        ∀ p ∈ spawned, p.2 = 0 ∧ p.1 < s.grid.width) ∧
      (∀ p ∈ s'.generators, p.1 < s.grid.width ∧ p.2 < s.grid.height) ∧
      (∀ x y, (x, y) ∉ s'.generators →
        s'.grid.cells x y =
          age_rune (if (x, y) ∈ s.generators
            then { s.grid.cells x y with color := s.baseColor }
            else s.grid.cells x y)) ∧
      (∀ p ∈ s'.generators, (s'.grid.cells p.1 p.2).color = RUNE_GENERATOR_COLOR) := by
  obtain ⟨g1, hdim⟩ := Option.isSome_iff_exists.mp
    (setColorCells_isSome s.generators s.baseColor s.grid hg)
  obtain ⟨hg1w, hg1h, hg1c⟩ := setColorCells_spec _ _ _ _ hdim
  have hkeptmem : ∀ p ∈ s.generators.filter (fun q => decide (g1.height > q.2 + 1)),
      p.1 < g1.width ∧ p.2 + 1 < g1.height := by
    intro p hp
    rw [List.mem_filter] at hp
    refine ⟨?_, by simpa using hp.2⟩
    rw [hg1w]
    exact (hg p hp.1).1
  obtain ⟨⟨adv, g2⟩, hadv⟩ := Option.isSome_iff_exists.mp
    (advanceCells_isSome 0 _ g1 rng s.baseColor hkeptmem)
  obtain ⟨hg2w, hg2h, hadvl, hg2c⟩ := advanceCells_spec _ _ _ _ _ _ hadv
  dsimp only at hg2w hg2h hadvl hg2c
  have hne : ¬(g2.height = 0) := by
    rw [hg2h, hg1h]; omega
  obtain ⟨⟨gens2, g3⟩, hspawn⟩ := Option.isSome_iff_exists.mp
    (spawnLoop_isSome g2.width 0 adv g2 rng s.baseColor (by omega)
      (by rw [hg2h, hg1h]; exact hh))
  obtain ⟨hg3w, hg3h, sp, hgens2, hsp, hg3c⟩ := spawnLoop_spec _ _ _ _ _ _ _ hspawn
  dsimp only at hg3w hg3h hgens2 hsp hg3c
  have hwchain : g2.width = s.grid.width := by rw [hg2w, hg1w]
  have hhchain : g2.height = s.grid.height := by rw [hg2h, hg1h]
  have hgens2mem : ∀ p ∈ gens2, p.1 < s.grid.width ∧ p.2 < s.grid.height := by
    intro p hp
    rw [hgens2] at hp
    rcases List.mem_append.mp hp with hpa | hps
    · rw [hadvl] at hpa
      obtain ⟨q, hq, rfl⟩ := List.mem_map.mp hpa
      have hb := hkeptmem q hq
      refine ⟨?_, ?_⟩
      · rw [← hg1w]; exact hb.1
      · rw [← hg1h]; exact hb.2
    · have hb := hsp p hps
      exact ⟨by omega, by omega⟩
  have hgens2mem3 : ∀ p ∈ gens2, p.1 < (agePhase g3).width ∧ p.2 < (agePhase g3).height := by
    intro p hp
    have hb := hgens2mem p hp
    rw [agePhase_width, agePhase_height, hg3w, hg3h, hwchain, hhchain]
    exact hb
  obtain ⟨g5, hhig⟩ := Option.isSome_iff_exists.mp
    (setColorCells_isSome gens2 RUNE_GENERATOR_COLOR (agePhase g3) hgens2mem3)
  obtain ⟨hg5w, hg5h, hg5c⟩ := setColorCells_spec _ _ _ _ hhig
  refine ⟨⟨g5, gens2, s.baseColor⟩, ?_, ?_, ?_, rfl, ⟨sp, ?_, ?_⟩, hgens2mem, ?_, ?_⟩
  · unfold Waterfall.step
    rw [hdim]
    simp [hadv, hspawn, hhig, hne]
  · dsimp only
    rw [hg5w, agePhase_width, hg3w, hwchain]
  · dsimp only
    rw [hg5h, agePhase_height, hg3h, hhchain]
  · dsimp only
    rw [hgens2, hadvl]
    simp only [hg1h]
  · intro p hp
    have hb := hsp p hp
    exact ⟨hb.1, by omega⟩
  · intro x y hxy
    dsimp only at hxy ⊢
    have hxsp : (x, y) ∉ sp := by
      intro hmem
      exact hxy (by rw [hgens2]; exact List.mem_append_right _ hmem)
    have hxadv : (x, y) ∉ adv := by
      intro hmem
      exact hxy (by rw [hgens2]; exact List.mem_append_left _ hmem)
    rw [hg5c x y, if_neg hxy, agePhase_cells, hg3c x y hxsp, hg2c x y hxadv, hg1c x y]
  · intro p hp
    dsimp only at hp ⊢
    rw [hg5c p.1 p.2, if_pos (by simpa using hp)]

/-! ### Invariants of the reachable states -/

theorem reachable_inv {w h d : Nat} {s : Waterfall}
    (hr : Reachable (Waterfall.init w h d) s) (hh : 0 < h) :
    s.grid.width = w ∧ s.grid.height = h ∧ s.baseColor = RUNE_COLOR_BASE ∧
    GenBounded s ∧ ColorInvariant s := by
  induction hr with
  | refl =>
    refine ⟨rfl, rfl, rfl, ?_, ?_⟩
    · intro p hp
      simp [Waterfall.init] at hp
    · intro x y _ _
      simp [Waterfall.init, Grid.new, create_rune, ColorInvariant]
  | @tail wMid wNew rng hr' hstep ih =>
    obtain ⟨hw, hhh, hbase, hgen, hcol⟩ := ih
    obtain ⟨s', hstep', hw', hh', hbase', -, hgen', hcells', hgcol'⟩ :=
      step_spec wMid rng hgen (by rw [hhh]; exact hh)
    rw [hstep] at hstep'
    obtain rfl := (Option.some.inj hstep').symm
    refine ⟨by rw [hw', hw], by rw [hh', hhh], by rw [hbase', hbase], ?_, ?_⟩
    · intro p hp
      have hb := hgen' p hp
      exact ⟨by rw [hw']; exact hb.1, by rw [hh']; exact hb.2⟩
    · intro x y hx hy
      by_cases hmem : (x, y) ∈ s'.generators
      · rw [if_pos hmem]
        exact hgcol' (x, y) hmem
      · rw [if_neg hmem, hcells' x y hmem, age_rune_color]
        by_cases hold : (x, y) ∈ wMid.generators
        · rw [if_pos hold]
          exact hbase
        · rw [if_neg hold]
          have := hcol x y (by rw [← hw']; exact hx) (by rw [← hh']; exact hy)
          rw [this, if_neg hold]

/-! ### Arithmetic of the fading band -/

theorem fade_channel_spec (c v : Nat) (hc : c ≤ 255) (hv0 : 0 < v)
    (hv : v < RUNE_FADE_DURATION) :
    fade_channel c v = c - c / RUNE_FADE_DURATION * (RUNE_FADE_DURATION - v) ∧
    fade_channel c v * RUNE_FADE_DURATION
      = c * v + c % RUNE_FADE_DURATION * (RUNE_FADE_DURATION - v) ∧
    fade_channel c v ≤ c ∧
    c / RUNE_FADE_DURATION * (RUNE_FADE_DURATION - v) ≤ c ∧
    c / RUNE_FADE_DURATION * (RUNE_FADE_DURATION - v) ≤ 255 := by
  simp only [RUNE_FADE_DURATION, fade_channel] at hv ⊢
  interval_cases v <;> omega

/-! ### The claims -/

/-- C2: in `render`, a rune with `lifetime ≥ RUNE_FADE_DURATION` is painted
with its stored color unchanged; a rune with `lifetime = 0` is painted
black; a rune with `0 < lifetime < RUNE_FADE_DURATION` has each RGB channel
scaled down by the factor `(RUNE_FADE_DURATION - lifetime) / RUNE_FADE_DURATION`
(the subtracted amount being `channel / fade * (fade - lifetime)` in the
integer arithmetic of the source), never below zero: the displayed channel
satisfies the linear-interpolation identity
`displayed * fade = channel * lifetime + (channel % fade) * (fade - lifetime)`
and never exceeds the stored channel. -/
theorem C2_render_fade_bands (r : Rune)
    (h0 : r.color.1 ≤ 255) (h1 : r.color.2.1 ≤ 255) (h2 : r.color.2.2 ≤ 255) :
    (RUNE_FADE_DURATION ≤ r.lifetime → render_color r = r.color) ∧
    (r.lifetime = 0 → render_color r = (0, 0, 0)) ∧
    (0 < r.lifetime → r.lifetime < RUNE_FADE_DURATION →
      render_color r =
        (r.color.1 - r.color.1 / RUNE_FADE_DURATION * (RUNE_FADE_DURATION - r.lifetime),
         r.color.2.1 - r.color.2.1 / RUNE_FADE_DURATION * (RUNE_FADE_DURATION - r.lifetime),
         r.color.2.2 - r.color.2.2 / RUNE_FADE_DURATION * (RUNE_FADE_DURATION - r.lifetime)) ∧
      (render_color r).1 * RUNE_FADE_DURATION
        = r.color.1 * r.lifetime
          + r.color.1 % RUNE_FADE_DURATION * (RUNE_FADE_DURATION - r.lifetime) ∧
      (render_color r).2.1 * RUNE_FADE_DURATION
        = r.color.2.1 * r.lifetime
          + r.color.2.1 % RUNE_FADE_DURATION * (RUNE_FADE_DURATION - r.lifetime) ∧
      (render_color r).2.2 * RUNE_FADE_DURATION
        = r.color.2.2 * r.lifetime
          + r.color.2.2 % RUNE_FADE_DURATION * (RUNE_FADE_DURATION - r.lifetime) ∧
      (render_color r).1 ≤ r.color.1 ∧
      (render_color r).2.1 ≤ r.color.2.1 ∧
      (render_color r).2.2 ≤ r.color.2.2) := by
  refine ⟨?_, ?_, ?_⟩
  · intro hlt
    rw [render_color, if_pos hlt]
  · intro hz
    rw [render_color, if_neg (by rw [hz]; decide), if_pos hz]
  · intro hp hlt
    have hrc : render_color r =
        (fade_channel r.color.1 r.lifetime,
         fade_channel r.color.2.1 r.lifetime,
         fade_channel r.color.2.2 r.lifetime) := by
      rw [render_color, if_neg (by omega), if_neg (by omega)]
    obtain ⟨he0, hi0, hle0, -, -⟩ := fade_channel_spec r.color.1 r.lifetime h0 hp hlt
    obtain ⟨he1, hi1, hle1, -, -⟩ := fade_channel_spec r.color.2.1 r.lifetime h1 hp hlt
    obtain ⟨he2, hi2, hle2, -, -⟩ := fade_channel_spec r.color.2.2 r.lifetime h2 hp hlt
    rw [hrc]
    exact ⟨by rw [he0, he1, he2], hi0, hi1, hi2, hle0, hle1, hle2⟩

/-- C2 witness: the theorem evaluated on a concrete fading rune. -/
theorem C2_render_fade_bands_witness :
    render_color (Rune.mk 'x' 3 (200, 100, 50)) = (88, 44, 22) :=
  ((C2_render_fade_bands (Rune.mk 'x' 3 (200, 100, 50))
    (by decide) (by decide) (by decide)).2.2 (by decide) (by decide)).1

/-- C8: the display color channels computed by `render` always lie in
`[0, 255]` (for any stored `u8` color, so channels `≤ 255`, and any
lifetime); moreover in the fading band the `u8` product that is subtracted
never exceeds 255 (no wrap) and never exceeds the channel it is subtracted
from (the saturating subtraction never actually underflows). -/
theorem C8_render_color_bounds (r : Rune)
    (h0 : r.color.1 ≤ 255) (h1 : r.color.2.1 ≤ 255) (h2 : r.color.2.2 ≤ 255) :
    (render_color r).1 ≤ 255 ∧ (render_color r).2.1 ≤ 255 ∧ (render_color r).2.2 ≤ 255 ∧
    (0 < r.lifetime → r.lifetime < RUNE_FADE_DURATION →
      r.color.1 / RUNE_FADE_DURATION * (RUNE_FADE_DURATION - r.lifetime) ≤ 255 ∧
      r.color.2.1 / RUNE_FADE_DURATION * (RUNE_FADE_DURATION - r.lifetime) ≤ 255 ∧
      r.color.2.2 / RUNE_FADE_DURATION * (RUNE_FADE_DURATION - r.lifetime) ≤ 255 ∧
      r.color.1 / RUNE_FADE_DURATION * (RUNE_FADE_DURATION - r.lifetime) ≤ r.color.1 ∧
      r.color.2.1 / RUNE_FADE_DURATION * (RUNE_FADE_DURATION - r.lifetime) ≤ r.color.2.1 ∧
      r.color.2.2 / RUNE_FADE_DURATION * (RUNE_FADE_DURATION - r.lifetime) ≤ r.color.2.2) := by
  by_cases hband : RUNE_FADE_DURATION ≤ r.lifetime
  · rw [render_color, if_pos hband]
    exact ⟨h0, h1, h2, fun hp hlt => by omega⟩
  · by_cases hz : r.lifetime = 0
    · rw [render_color, if_neg hband, if_pos hz]
      exact ⟨by decide, by decide, by decide, fun hp _ => by omega⟩
    · have hp : 0 < r.lifetime := by omega
      have hlt : r.lifetime < RUNE_FADE_DURATION := by
        rcases Nat.lt_or_ge r.lifetime RUNE_FADE_DURATION with h | h
        · exact h
        · exact absurd h hband
      rw [render_color, if_neg hband, if_neg hz]
      obtain ⟨-, -, hle0, hs0, hb0⟩ := fade_channel_spec r.color.1 r.lifetime h0 hp hlt
      obtain ⟨-, -, hle1, hs1, hb1⟩ := fade_channel_spec r.color.2.1 r.lifetime h1 hp hlt
      obtain ⟨-, -, hle2, hs2, hb2⟩ := fade_channel_spec r.color.2.2 r.lifetime h2 hp hlt
      refine ⟨?_, ?_, ?_, fun _ _ => ⟨hb0, hb1, hb2, hs0, hs1, hs2⟩⟩ <;> dsimp only <;> omega

/-- C8 witness: the theorem evaluated on a concrete rune with small channel
values in the fading band. -/
theorem C8_render_color_bounds_witness :
    (render_color (Rune.mk 'y' 1 (5, 255, 0))).1 ≤ 255 ∧
    (render_color (Rune.mk 'y' 1 (5, 255, 0))).2.1 ≤ 255 ∧
    (render_color (Rune.mk 'y' 1 (5, 255, 0))).2.2 ≤ 255 :=
  ⟨(C8_render_color_bounds (Rune.mk 'y' 1 (5, 255, 0)) (by decide) (by decide) (by decide)).1,
   (C8_render_color_bounds (Rune.mk 'y' 1 (5, 255, 0)) (by decide) (by decide) (by decide)).2.1,
   (C8_render_color_bounds (Rune.mk 'y' 1 (5, 255, 0)) (by decide) (by decide) (by decide)).2.2.1⟩

/-- C7: every rune produced by `create_rune` (and hence by
`create_random_rune`, used both for generator spawns and advances) has
lifetime equal to the uniform draw from `[RUNE_LIFETIME.0, RUNE_LIFETIME.1)`
plus `RUNE_FADE_DURATION`, hence at least `RUNE_FADE_DURATION`, so it starts
in the full-brightness band of `render`. -/
theorem C7_fresh_rune_lifetime (symbolDraw lifetimeDraw : Nat) (ch : Char)
    (color : Nat × Nat × Nat)
    (_hlo : RUNE_LIFETIME.1 ≤ lifetimeDraw) (_hhi : lifetimeDraw < RUNE_LIFETIME.2) :
    (create_rune lifetimeDraw ch color).lifetime = lifetimeDraw + RUNE_FADE_DURATION ∧
    (create_random_rune symbolDraw lifetimeDraw color).lifetime
      = lifetimeDraw + RUNE_FADE_DURATION ∧
    RUNE_FADE_DURATION ≤ (create_rune lifetimeDraw ch color).lifetime ∧
    RUNE_FADE_DURATION ≤ (create_random_rune symbolDraw lifetimeDraw color).lifetime ∧
    render_color (create_random_rune symbolDraw lifetimeDraw color) = color := by
  refine ⟨rfl, rfl, by simp [create_rune], by simp [create_random_rune, create_rune], ?_⟩
  rw [render_color, if_pos (by simp [create_random_rune, create_rune])]
  rfl

/-- C7 witness: the theorem evaluated at the smallest allowed draw. -/
theorem C7_fresh_rune_lifetime_witness :
    (create_random_rune 0 4 RUNE_COLOR_BASE).lifetime = 4 + RUNE_FADE_DURATION ∧
    RUNE_FADE_DURATION ≤ (create_random_rune 0 4 RUNE_COLOR_BASE).lifetime ∧
    render_color (create_random_rune 0 4 RUNE_COLOR_BASE) = RUNE_COLOR_BASE :=
  ⟨(C7_fresh_rune_lifetime 0 4 ' ' RUNE_COLOR_BASE (by decide) (by decide)).2.1,
   (C7_fresh_rune_lifetime 0 4 ' ' RUNE_COLOR_BASE (by decide) (by decide)).2.2.2.1,
   (C7_fresh_rune_lifetime 0 4 ' ' RUNE_COLOR_BASE (by decide) (by decide)).2.2.2.2⟩

/-- C10: `Grid::new` fills the whole grid with clones of the single blank
rune `create_rune(' ', RUNE_COLOR_BASE)` built from one shared lifetime
draw: every in-bounds cell has the space glyph, the base color, the same
lifetime `draw + RUNE_FADE_DURATION`, and any two in-bounds cells are
identical. -/
theorem C10_grid_new_blank (width height lifetimeDraw x y x' y' : Nat)
    (hx : x < width) (hy : y < height) (_hx' : x' < width) (_hy' : y' < height) :
    (Grid.new width height lifetimeDraw).cells x y
      = create_rune lifetimeDraw ' ' RUNE_COLOR_BASE ∧
    ((Grid.new width height lifetimeDraw).cells x y).character = ' ' ∧
    ((Grid.new width height lifetimeDraw).cells x y).color = RUNE_COLOR_BASE ∧
    ((Grid.new width height lifetimeDraw).cells x y).lifetime
      = lifetimeDraw + RUNE_FADE_DURATION ∧
    (Grid.new width height lifetimeDraw).cells x y
      = (Grid.new width height lifetimeDraw).cells x' y' ∧
    (Grid.new width height lifetimeDraw).get_rune x y
      = some (create_rune lifetimeDraw ' ' RUNE_COLOR_BASE) := by
  refine ⟨rfl, rfl, rfl, rfl, rfl, ?_⟩
  exact get_rune_eq_some.mpr ⟨hy, hx, rfl⟩

theorem age_rune_spec (r : Rune) :
    ((age_rune r).lifetime = r.lifetime ∨ (age_rune r).lifetime + 1 = r.lifetime) ∧
    (r.lifetime = 0 → (age_rune r).lifetime = 0) ∧
    (r.lifetime = 0 → (age_rune r).character = ' ') := by
  unfold age_rune
  split_ifs with h1 h2
  · simp [h2]
  · refine ⟨Or.inr ?_, fun hz => absurd hz h2, fun hz => absurd hz h2⟩
    dsimp only
    omega
  · have : ¬(r.lifetime = 0) := by
      intro hz
      rw [hz] at h1
      exact h1 (by decide)
    exact ⟨Or.inl rfl, fun hz => absurd hz this, fun hz => absurd hz this⟩

/-- C4: for every cell that is not overwritten by a freshly created rune
during a `step` call (the cells overwritten with fresh runes are exactly the
positions of the post-step generator list: the advanced survivors and the
new spawns), the lifetime after `step` is either unchanged or exactly one
less than before, and once it is 0 it stays 0 (it can never go below 0,
lifetimes being natural numbers). -/
theorem C4_lifetime_monotone (s : Waterfall) (rng : StepRng) (s' : Waterfall) (x y : Nat)
    (hg : ∀ p ∈ s.generators, p.1 < s.grid.width ∧ p.2 < s.grid.height)
    (hh : 0 < s.grid.height)
    (hstep : s.step rng = some s')
    (hfresh : (x, y) ∉ s'.generators) :
    ((s'.grid.cells x y).lifetime = (s.grid.cells x y).lifetime ∨
      (s'.grid.cells x y).lifetime + 1 = (s.grid.cells x y).lifetime) ∧
    ((s.grid.cells x y).lifetime = 0 → (s'.grid.cells x y).lifetime = 0) := by
  obtain ⟨s'', hstep'', -, -, -, -, -, hcells, -⟩ := step_spec s rng hg hh
  rw [hstep] at hstep''
  obtain rfl := Option.some.inj hstep''
  have hcell := hcells x y hfresh
  have hlife : (if (x, y) ∈ s.generators
      then { s.grid.cells x y with color := s.baseColor }
      else s.grid.cells x y).lifetime = (s.grid.cells x y).lifetime := by
    split_ifs <;> rfl
  obtain ⟨hor, hz, -⟩ := age_rune_spec (if (x, y) ∈ s.generators
    then { s.grid.cells x y with color := s.baseColor } else s.grid.cells x y)
  rw [hlife] at hor hz
  rw [hcell]
  exact ⟨hor, hz⟩

/-- C4 witness: the theorem evaluated on a 1 × 1 state with a lifetime-1
cell, no generators and no spawn. -/
theorem C4_lifetime_monotone_witness :
    ((((oneLifeState.step noSpawnRng).getD oneLifeState).grid.cells 0 0).lifetime =
        (oneLifeState.grid.cells 0 0).lifetime ∨
      (((oneLifeState.step noSpawnRng).getD oneLifeState).grid.cells 0 0).lifetime + 1 =
        (oneLifeState.grid.cells 0 0).lifetime) ∧
    ((oneLifeState.grid.cells 0 0).lifetime = 0 →
      (((oneLifeState.step noSpawnRng).getD oneLifeState).grid.cells 0 0).lifetime = 0) :=
  C4_lifetime_monotone oneLifeState noSpawnRng
    ((oneLifeState.step noSpawnRng).getD oneLifeState) 0 0
    (by decide) (by decide) rfl (by decide)

/-- C1 counterexample: in the 1 × 1 state whose cell has lifetime 1, a
`step` call (with no spawn) decrements the lifetime to exactly 0, yet the
character after that same call is still `'A'`, not the blank/space
character: the blanking happens only on the following call. -/
theorem C1_counterexample :
    (oneLifeState.grid.cells 0 0).lifetime = 1 ∧
    (oneLifeState.step noSpawnRng).map
        (fun s' => ((s'.grid.cells 0 0).lifetime, (s'.grid.cells 0 0).character))
      = some (0, 'A') ∧
    ('A' : Char) ≠ ' ' :=
  ⟨rfl, by decide, by decide⟩

/-- C1 (amended): a cell that enters a `step` call with lifetime already 0
and is not overwritten by a fresh rune during that call leaves it with the
blank/space character and lifetime still 0.  Hence the glyph is blanked on
the step call AFTER the one that decremented the lifetime to 0 (not on the
same call), and from then on it stays blank with lifetime pinned at 0 until
a fresh rune overwrites the cell. -/
theorem C1_blank_after_zero (s : Waterfall) (rng : StepRng) (s' : Waterfall) (x y : Nat)
    (hg : ∀ p ∈ s.generators, p.1 < s.grid.width ∧ p.2 < s.grid.height)
    (hh : 0 < s.grid.height)
    (hstep : s.step rng = some s')
    (hfresh : (x, y) ∉ s'.generators)
    (hzero : (s.grid.cells x y).lifetime = 0) :
    (s'.grid.cells x y).character = ' ' ∧ (s'.grid.cells x y).lifetime = 0 := by
  obtain ⟨s'', hstep'', -, -, -, -, -, hcells, -⟩ := step_spec s rng hg hh
  rw [hstep] at hstep''
  obtain rfl := Option.some.inj hstep''
  have hcell := hcells x y hfresh
  have hlife : (if (x, y) ∈ s.generators
      then { s.grid.cells x y with color := s.baseColor }
      else s.grid.cells x y).lifetime = 0 := by
    split_ifs <;> exact hzero
  obtain ⟨-, hz, hc⟩ := age_rune_spec (if (x, y) ∈ s.generators
    then { s.grid.cells x y with color := s.baseColor } else s.grid.cells x y)
  rw [hcell]
  exact ⟨hc hlife, hz hlife⟩

/-- C1 witness: the amended theorem evaluated on a 1 × 1 state whose cell
already has lifetime 0. -/
theorem C1_blank_after_zero_witness :
    (((zeroLifeState.step noSpawnRng).getD zeroLifeState).grid.cells 0 0).character = ' ' ∧
    (((zeroLifeState.step noSpawnRng).getD zeroLifeState).grid.cells 0 0).lifetime = 0 :=
  C1_blank_after_zero zeroLifeState noSpawnRng
    ((zeroLifeState.step noSpawnRng).getD zeroLifeState) 0 0
    (by decide) (by decide) rfl (by decide) rfl

/-- C6: a `step` call keeps in the generator list exactly the pre-step
generators whose next row stays inside the grid, each advanced by one row,
followed by fresh spawns at row 0: a generator with `row + 1 ≥ height`
(in particular one at row `height - 1`) is not among the survivors, and the
pruning itself never writes to the grid — a cell not holding a post-step
generator (such as the cell of a pruned generator that nothing advanced
into) keeps its rune, merely dimmed to the base color and aged. -/
theorem C6_generator_pruning (s : Waterfall) (rng : StepRng) (s' : Waterfall)
    (hg : ∀ p ∈ s.generators, p.1 < s.grid.width ∧ p.2 < s.grid.height)
    (hh : 0 < s.grid.height)
    (hstep : s.step rng = some s') :
    (∃ spawned, s'.generators =
        ((s.generators.filter fun q => decide (s.grid.height > q.2 + 1)).map
          fun q => (q.1, q.2 + 1)) ++ spawned ∧
      ∀ p ∈ spawned, p.2 = 0) ∧
    (∀ p ∈ s.generators,
      p ∈ s.generators.filter (fun q => decide (s.grid.height > q.2 + 1)) ↔
        p.2 + 1 < s.grid.height) ∧
    (∀ p ∈ s.generators, p.2 = s.grid.height - 1 →
      p ∉ s.generators.filter (fun q => decide (s.grid.height > q.2 + 1))) ∧
    (∀ x y, (x, y) ∉ s'.generators →
      s'.grid.cells x y =
        age_rune (if (x, y) ∈ s.generators
          then { s.grid.cells x y with color := s.baseColor }
          else s.grid.cells x y)) := by
  obtain ⟨s'', hstep'', -, -, -, ⟨sp, hgens, hsp⟩, -, hcells, -⟩ := step_spec s rng hg hh
  rw [hstep] at hstep''
  obtain rfl := Option.some.inj hstep''
  refine ⟨⟨sp, hgens, fun p hp => (hsp p hp).1⟩, ?_, ?_, hcells⟩
  · intro p hp
    simp [List.mem_filter, hp]
  · intro p hp hrow
    simp only [List.mem_filter, decide_eq_true_eq]
    intro hmem
    omega

/-- C6 witness: the theorem evaluated on a 1 × 2 state with a single
generator at the bottom row `height - 1 = 1`. -/
theorem C6_generator_pruning_witness :
    ((0, 1) ∉ bottomState.generators.filter
        (fun q => decide (bottomState.grid.height > q.2 + 1))) ∧
    ((0, 1) ∈ bottomState.generators) :=
  ⟨(C6_generator_pruning bottomState noSpawnRng
      ((bottomState.step noSpawnRng).getD bottomState)
      (by decide) (by decide) rfl).2.2.1 (0, 1) (by decide) (by decide),
   by decide⟩

/-- C5: in every state reachable from a freshly constructed `Waterfall`
(with positive height) by repeated `step` calls, every generator coordinate
is inside the grid, and every `step` call from such a state succeeds: the
fatal out-of-bounds branches of `Grid::get_rune` / `Grid::set_rune`
(modelled as `none`) are never taken. -/
theorem C5_bounds_safety (w h d : Nat) (s : Waterfall)
    (hr : Reachable (Waterfall.init w h d) s) (hh : 0 < h) :
    (∀ p ∈ s.generators, p.1 < s.grid.width ∧ p.2 < s.grid.height) ∧
    ∀ rng : StepRng, (s.step rng).isSome := by
  obtain ⟨-, hhh, -, hgen, -⟩ := reachable_inv hr hh
  refine ⟨hgen, fun rng => ?_⟩
  obtain ⟨s', hstep, -⟩ := step_spec s rng hgen (by rw [hhh]; exact hh)
  rw [hstep]
  rfl

/-- C5 witness: the theorem evaluated at the freshly constructed 2 × 2
state itself. -/
theorem C5_bounds_safety_witness :
    ((Waterfall.init 2 2 4).step noSpawnRng).isSome ∧ 0 < 2 :=
  ⟨(C5_bounds_safety 2 2 4 (Waterfall.init 2 2 4) (Reachable.refl _) (by decide)).2
      noSpawnRng,
   by decide⟩

/-- C9: after any number of `step` calls from a freshly constructed
`Waterfall` (with positive height), an in-bounds cell stores the
distinguished generator color `RUNE_GENERATOR_COLOR` exactly when its
coordinate is in the generator list; every other cell — including one a
generator vacated on the last tick — stores the base color
`RUNE_COLOR_BASE`. -/
theorem C9_generator_color (w h d : Nat) (s : Waterfall) (x y : Nat)
    (hr : Reachable (Waterfall.init w h d) s) (hh : 0 < h)
    (hx : x < s.grid.width) (hy : y < s.grid.height) :
    ((s.grid.cells x y).color = RUNE_GENERATOR_COLOR ↔ (x, y) ∈ s.generators) ∧
    ((x, y) ∉ s.generators → (s.grid.cells x y).color = RUNE_COLOR_BASE) := by
  obtain ⟨-, -, -, -, hcol⟩ := reachable_inv hr hh
  have hc := hcol x y hx hy
  by_cases hmem : (x, y) ∈ s.generators
  · rw [hc, if_pos hmem]
    exact ⟨⟨fun _ => hmem, fun _ => rfl⟩, fun hn => absurd hmem hn⟩
  · rw [hc, if_neg hmem]
    exact ⟨⟨fun hcontra => absurd hcontra (by decide), fun hm => absurd hm hmem⟩,
      fun _ => rfl⟩

/-- C9 witness: the theorem evaluated on the state reached by one `step`
call (with no spawns) from a fresh 2 × 2 state. -/
theorem C9_generator_color_witness :
    ((((Waterfall.init 2 2 4).step noSpawnRng).getD
          (Waterfall.init 2 2 4)).grid.cells 0 0).color = RUNE_COLOR_BASE :=
  (C9_generator_color 2 2 4
    (((Waterfall.init 2 2 4).step noSpawnRng).getD (Waterfall.init 2 2 4)) 0 0
    (Reachable.tail noSpawnRng (Reachable.refl _) rfl) (by decide)
    (by decide) (by decide)).2 (by decide)

/-- C3: the spawn test of `step` triggers on the draws
`0, 1, ..., GENERATOR_IN_COLUMN.0` out of the `GENERATOR_IN_COLUMN.1`
equally likely outcomes of `gen_range(0..GENERATOR_IN_COLUMN.1)` — that is
`GENERATOR_IN_COLUMN.0 + 1 = 2` triggering outcomes, not the
`GENERATOR_IN_COLUMN.0 = 1` the claim (and the source's own comment:
probability `.0` to `.1`) states; in particular the boundary draw equal to
`GENERATOR_IN_COLUMN.0` itself spawns a generator at `(0, 0)`. -/
theorem C3_spawn_probability_bug :
    ((Finset.range GENERATOR_IN_COLUMN.2).filter fun d_ => spawnTrigger d_ = true).card
        = GENERATOR_IN_COLUMN.1 + 1 ∧
    GENERATOR_IN_COLUMN.1 + 1 ≠ GENERATOR_IN_COLUMN.1 ∧
    spawnTrigger GENERATOR_IN_COLUMN.1 = true ∧
    ((Waterfall.init 1 1 4).step boundaryRng).map (fun s' => s'.generators)
        = some [(0, 0)] :=
  ⟨by decide, by decide, rfl, by decide⟩

/-- C10 witness: the theorem evaluated on a 3 × 2 grid. -/
theorem C10_grid_new_blank_witness :
    ((Grid.new 3 2 5).cells 1 1).character = ' ' ∧
    ((Grid.new 3 2 5).cells 1 1).lifetime = 5 + RUNE_FADE_DURATION ∧
    (Grid.new 3 2 5).cells 1 1 = (Grid.new 3 2 5).cells 2 0 :=
  ⟨(C10_grid_new_blank 3 2 5 1 1 2 0 (by decide) (by decide) (by decide) (by decide)).2.1,
   (C10_grid_new_blank 3 2 5 1 1 2 0 (by decide) (by decide) (by decide) (by decide)).2.2.2.1,
   (C10_grid_new_blank 3 2 5 1 1 2 0 (by decide) (by decide) (by decide) (by decide)).2.2.2.2.1⟩

end SymbolWaterfall
